import Mathlib

/-!
Shallow embedding of the vtable crate (src/every.rs, src/lib.rs, src/vtable.rs,
src/ched.rs).

Modelling conventions:
* A Rust runtime type identity (`TypeId`) is an element of an abstract type `Ty`
  with decidable equality; the interpretation `El : Ty → Type` gives each
  identity its carrier, and `tyName : Ty → String` is `std::any::type_name`.
* An erased value (`Box<dyn Every>` / `&dyn Every`) is a dependent pair
  `EverD`: the runtime type tag plus a value of that type's carrier.
* A Rust panic is modelled as the `.error` branch of `Except String`, carrying
  the panic message; total non-panicking functions return plain values.
* The three facades (`dyn Every`, `dyn Every + Send`, `dyn Every + Send + Sync`)
  delegate to the same functions in the source, so one set of definitions
  models all three.
-/

/-- An erased value: runtime type tag plus payload (`Box<dyn Every>`). -/
structure EverD (Ty : Type) (El : Ty → Type) where
  ty : Ty
  val : El ty

/-- `DowncastError` from src/every.rs: source/target type ids and names. -/
structure DowncastError (Ty : Type) where
  source_type_id : Ty
  source_type_name : String
  target_type_id : Ty
  target_type_name : String
  deriving DecidableEq

section Model

variable {Ty : Type} [DecidableEq Ty] {El : Ty → Type}
variable (tyName : Ty → String)
variable (eqEl : (t : Ty) → El t → El t → Bool)
variable (hashBytes : (t : Ty) → El t → List Nat)
variable (debugStr : (t : Ty) → El t → String)

/-- `<dyn Every>::is::<T>`: `TypeId::of::<T>() == self.type_id()`. -/
def EverD.is (T : Ty) (e : EverD Ty El) : Bool :=
  decide (T = e.ty)

/-- `cannot_downcast::<T>(source)` from src/every.rs. -/
def cannotDowncast (T : Ty) (e : EverD Ty El) : DowncastError Ty :=
  { source_type_id := e.ty
    source_type_name := tyName e.ty
    target_type_id := T
    target_type_name := tyName T }

/-- `<dyn Every>::downcast_ref::<T>`: the checked reference downcast.  On a type
match the payload is reinterpreted at type `T` (the cast along the tag
equality); otherwise the `DowncastError` built by `cannot_downcast` is
returned. -/
def downcastRef (T : Ty) (e : EverD Ty El) : Except (DowncastError Ty) (El T) :=
  if h : e.ty = T then .ok (h ▸ e.val) else .error (cannotDowncast tyName T e)

/-- `<dyn Every>::downcast_mut::<T>`: same check and same error as
`downcast_ref` (the mutable-borrow plumbing has no effect on the result). -/
def downcastMut (T : Ty) (e : EverD Ty El) : Except (DowncastError Ty) (El T) :=
  if h : e.ty = T then .ok (h ▸ e.val) else .error (cannotDowncast tyName T e)

/-- Private `__downcast::<T>` on `Box<dyn Every>`: on success the owned payload,
on failure the whole box handed back unchanged (`Err(s)`). -/
def downcastOwned (T : Ty) (s : EverD Ty El) :
    Except (EverD Ty El) (El T) :=
  if h : s.ty = T then .ok (h ▸ s.val) else .error s

/-- Public `BoxDowncast::downcast::<T>` for `Box<dyn Every>`: maps the
`__downcast` error box into a `DowncastError` via `cannot_downcast`. -/
def boxDowncast (T : Ty) (s : EverD Ty El) :
    Except (DowncastError Ty) (El T) :=
  match downcastOwned T s with
  | .ok v => .ok v
  | .error this => .error (cannotDowncast tyName T this)

/-- `impl Display for DowncastError`: the fixed message template. -/
def displayError (e : DowncastError Ty) : String :=
  "cannot downcast " ++ e.source_type_name ++ " into " ++ e.target_type_name

/-- `every::panic::<R>(error)`: aborts with the error's displayed message.  The
panic is the `.error` branch carrying that message; no `R` is ever produced. -/
def epanic (R : Type) (e : DowncastError Ty) : Except String R :=
  .error (displayError e)

/-- `partial_eq::<T>` from src/lib.rs: downcast `this` (panicking on failure
with the downcast error message), downcast `other`, and return
`rhs.is_ok_and(|rhs| lhs == rhs)` — `false` whenever `other` is not a `T`. -/
def peqFn (t : Ty) (a b : EverD Ty El) : Except String Bool :=
  match downcastRef tyName t a with
  | .error e => .error (displayError e)
  | .ok lhs =>
    .ok (match downcastRef tyName t b with
      | .error _ => false
      | .ok rhs => eqEl t lhs rhs)

/-- `debug::<T>` from src/lib.rs: downcast (panicking on failure) then format
with `T`'s native `Debug`. -/
def debugFn (t : Ty) (a : EverD Ty El) : Except String String :=
  match downcastRef tyName t a with
  | .error e => .error (displayError e)
  | .ok v => .ok (debugStr t v)

/-- `clone::<T>` from src/lib.rs: downcast (panicking on failure), clone with
`T`'s native `Clone`, and re-box the clone as an erased value of type `T`. -/
def cloneFn (t : Ty) (a : EverD Ty El) : Except String (EverD Ty El) :=
  match downcastRef tyName t a with
  | .error e => .error (displayError e)
  | .ok v => .ok ⟨t, v⟩

/-- `hash::<T>` from src/lib.rs: downcast (panicking on failure) then feed
`T`'s native hash bytes into the accumulator state. -/
def hashFn (t : Ty) (a : EverD Ty El) (state : List Nat) :
    Except String (List Nat) :=
  match downcastRef tyName t a with
  | .error e => .error (displayError e)
  | .ok v => .ok (state ++ hashBytes t v)

/-- `ched::VTable`: the four function entries, plus `spec`, the ghost record of
which concrete type the table was specialised for (determined in the source by
which `Specialise::<T>::specialise` built it). -/
structure VTable (Ty : Type) (El : Ty → Type) where
  clone : EverD Ty El → Except String (EverD Ty El)
  debug : EverD Ty El → Except String String
  peq : EverD Ty El → EverD Ty El → Except String Bool
  hash : EverD Ty El → List Nat → Except String (List Nat)
  spec : Ty

/-- `impl Specialise<T> for VTable`: the four entries specialised for `t`. -/
def specialise (t : Ty) : VTable Ty El :=
  { clone := cloneFn tyName t
    debug := debugFn tyName debugStr t
    peq := peqFn tyName eqEl t
    hash := hashFn tyName hashBytes t
    spec := t }

/-- `vtable::Token<T, VTable>`: a table reference plus the proof that it is the
table the registry specialises for `t`.  `create_unchecked` is private and only
called from `Default::default`, which resolves through the registry, so every
token's table is the `t`-specialisation. -/
structure Token (tyName : Ty → String)
    (eqEl : (t : Ty) → El t → El t → Bool)
    (hashBytes : (t : Ty) → El t → List Nat)
    (debugStr : (t : Ty) → El t → String) (t : Ty) where
  vt : VTable Ty El
  hvt : vt = specialise tyName eqEl hashBytes debugStr t

/-- `Token::default()`: resolve the `t`-specialised table. -/
def Token.resolve (t : Ty) : Token tyName eqEl hashBytes debugStr t :=
  ⟨specialise tyName eqEl hashBytes debugStr t, rfl⟩

/-- `ched::CHED`: a boxed erased value paired with a table reference. -/
structure CHED (Ty : Type) (El : Ty → Type) where
  inner : EverD Ty El
  vtable : VTable Ty El

/-- `CHED::new::<T>(value, tok)`: box the value, attach the token's table. -/
def CHED.new (t : Ty) (v : El t) (tok : Token tyName eqEl hashBytes debugStr t) :
    CHED Ty El :=
  ⟨⟨t, v⟩, tok.vt⟩

/-- `impl PartialEq for CHED`: dispatch through the table's peq entry. -/
def chedEq (c1 c2 : CHED Ty El) : Except String Bool :=
  c1.vtable.peq c1.inner c2.inner

/-- `impl Hash for CHED`: dispatch through the table's hash entry. -/
def chedHash (c : CHED Ty El) (state : List Nat) : Except String (List Nat) :=
  c.vtable.hash c.inner state

/-- `impl Debug for CHED`: dispatch through the table's debug entry. -/
def chedDebug (c : CHED Ty El) : Except String String :=
  c.vtable.debug c.inner

/-- `impl Clone for CHED`: clone the inner through the table's clone entry and
pair the result with the same (shared) table reference. -/
def chedClone (c : CHED Ty El) : Except String (CHED Ty El) :=
  match c.vtable.clone c.inner with
  | .error e => .error e
  | .ok inner => .ok ⟨inner, c.vtable⟩

/-- Mutation through `inner_mut().downcast_mut::<t>()`: on a type match the
payload is overwritten with a new value of the same type `t`; on a mismatch
`downcast_mut` fails and the container is untouched.  This models only the
downcast-mediated write; `chedSetInner` models the raw write through the
returned `&mut Box<dyn Every>`. -/
def chedMutate (t : Ty) (f : El t → El t) (c : CHED Ty El) : CHED Ty El :=
  if h : c.inner.ty = t then ⟨⟨t, f (h ▸ c.inner.val)⟩, c.vtable⟩ else c

/-- A whole-box write through the `&mut Box<dyn Every>` returned by
`CHED::inner_mut` (`*c.inner_mut() = b`): the inner box is replaced by `b`,
which may carry any runtime type, while the table is kept. -/
def chedSetInner (b : EverD Ty El) (c : CHED Ty El) : CHED Ty El :=
  ⟨b, c.vtable⟩

/-- The construction invariant: the attached table is the table specialised for
the inner value's actual runtime type. -/
def wellFormed (c : CHED Ty El) : Prop :=
  c.vtable = specialise tyName eqEl hashBytes debugStr c.inner.ty

/-- Boolean test for one existing equal key, used by the associative-container
model. -/
def chedEqB (c1 c2 : CHED Ty El) : Bool :=
  match chedEq c1 c2 with
  | .ok true => true
  | _ => false

/-- Modelled from the spec: an associative container keyed by dynamic values
(the source only exercises `std::collections::HashMap`, which is outside this
repository).  Insert overwrites the value of an existing equal key and appends
a new entry otherwise. -/
def mapInsert {β : Type} (m : List (CHED Ty El × β)) (k : CHED Ty El) (v : β) :
    List (CHED Ty El × β) :=
  if m.any (fun p => chedEqB p.1 k) then
    m.map (fun p => if chedEqB p.1 k then (p.1, v) else p)
  else
    (k, v) :: m

end Model

/-!
Registry model (src/vtable.rs).  `get_or_create` runs its whole
check-then-insert sequence under the registry's write lock, so in any
concurrent execution the calls form a sequence of atomic steps.  A table
reference (the `&'static V` produced by `Box::leak`) is modelled by the
natural-number identity of its creation. -/

/-- Registry state: the association from `(TypeId::of::<T>(), TypeId::of::<V>())`
keys to leaked table references (identified by creation index), plus the next
fresh identity. -/
structure RegState (K : Type) where
  tbl : List (K × Nat)
  next : Nat

/-- The empty registry (`LazyLock::new(Default::default)`). -/
def RegState.empty (K : Type) : RegState K := ⟨[], 0⟩

/-- Lookup in the registry mapping. -/
def findTbl {K : Type} [DecidableEq K] : List (K × Nat) → K → Option Nat
  | [], _ => none
  | p :: ps, k => if p.1 = k then some p.2 else findTbl ps k

/-- `Registry::get_or_create`: one atomic check-then-insert under the write
lock.  Occupied: return the existing reference.  Vacant: specialise a new
table, leak it (a fresh identity), insert it, return it. -/
def getOrCreate {K : Type} [DecidableEq K] (k : K) (s : RegState K) :
    RegState K × Nat :=
  match findTbl s.tbl k with
  | some id => (s, id)
  | none => (⟨(k, s.next) :: s.tbl, s.next + 1⟩, s.next)

/-- A concurrent execution: the interleaving of `get_or_create` calls is a
sequence of keys, each call one atomic step; returns the final state and each
call's returned table reference. -/
def regRun {K : Type} [DecidableEq K] (s : RegState K) :
    List K → RegState K × List Nat
  | [] => (s, [])
  | k :: ks =>
    let sr := getOrCreate k s
    let rest := regRun sr.1 ks
    (rest.1, sr.2 :: rest.2)

/-!
Heap model for `Box` allocation (used by the clone-independence claim).
`Box::new` allocates a fresh cell; `Clone for CHED` allocates the deep copy in
a fresh cell, so the original and the clone never alias. -/

section HeapModel

variable {Ty : Type} [DecidableEq Ty] {El : Ty → Type}

/-- The heap: a list of erased cells; an address is an index. -/
abbrev Heap (Ty : Type) (El : Ty → Type) : Type := List (EverD Ty El)

/-- `Box::new`: append a fresh cell, return the new heap and the address. -/
def halloc (h : Heap Ty El) (e : EverD Ty El) : Heap Ty El × Nat :=
  (h ++ [e], h.length)

/-- A `CHED` whose box is explicit: the inner is a heap address. -/
structure HCHED (Ty : Type) (El : Ty → Type) where
  inner : Nat
  vtable : VTable Ty El

/-- `impl Clone for CHED` over the explicit heap: read the inner cell, run the
table's clone entry (a deep copy of the payload), allocate the copy in a fresh
box, and pair it with the same shared table reference. -/
def hchedClone (h : Heap Ty El) (c : HCHED Ty El) :
    Except String (Heap Ty El × HCHED Ty El) :=
  match h[c.inner]? with
  | none => .error "dangling box"
  | some e =>
    match c.vtable.clone e with
    | .error msg => .error msg
    | .ok copy =>
      let ha := halloc h copy
      .ok (ha.1, ⟨ha.2, c.vtable⟩)

/-- Mutation of a `CHED` payload through `inner_mut().downcast_mut::<t>()` over
the explicit heap: overwrite the cell at the container's address when its
runtime type is `t`; a failed downcast writes nothing. -/
def hmutate (h : Heap Ty El) (c : HCHED Ty El) (t : Ty) (f : El t → El t) :
    Heap Ty El :=
  match h[c.inner]? with
  | none => h
  | some e =>
    if hty : e.ty = t then h.set c.inner ⟨t, f (hty ▸ e.val)⟩ else h

end HeapModel

/-!
A concrete universe of Rust types, used to instantiate the abstract model:
`i32`, `u32` and `&str` (the types exercised by the crate's tests).  `i32` and
`u32` have distinct type identities even though both carriers are `Int`. -/

/-- Concrete runtime type identities. -/
inductive RustTy
  | i32
  | u32
  | str
  deriving DecidableEq

/-- Carrier of each concrete type. -/
@[reducible] def rustEl : RustTy → Type
  | .i32 => Int
  | .u32 => Int
  | .str => String

/-- `std::any::type_name` for the concrete types. -/
def rustName : RustTy → String
  | .i32 => "i32"
  | .u32 => "u32"
  | .str => "&str"

/-- Native `PartialEq` of each concrete type. -/
def rustEq : (t : RustTy) → rustEl t → rustEl t → Bool
  | .i32, a, b => a == b
  | .u32, a, b => a == b
  | .str, a, b => a == b

/-- Native `Hash` of each concrete type: the bytes fed to the accumulator. -/
def rustHashBytes : (t : RustTy) → rustEl t → List Nat
  | .i32, v => [if v < 0 then 1 else 0, v.natAbs]
  | .u32, v => [if v < 0 then 1 else 0, v.natAbs]
  | .str, s => s.data.map Char.toNat

/-- Native `Debug` formatting of each concrete type. -/
def rustDebug : (t : RustTy) → rustEl t → String
  | .i32, v => toString v
  | .u32, v => toString v
  | .str, s => "\"" ++ s ++ "\""

/-- `Token::default()` over the concrete universe. -/
def rustTok (t : RustTy) : Token rustName rustEq rustHashBytes rustDebug t :=
  Token.resolve rustName rustEq rustHashBytes rustDebug t

/-- A boxed erased value over the concrete universe. -/
def ev (t : RustTy) (v : rustEl t) : EverD RustTy rustEl := ⟨t, v⟩

section Lemmas

variable {Ty : Type} [DecidableEq Ty] {El : Ty → Type}
variable (tyName : Ty → String)
variable (eqEl : (t : Ty) → El t → El t → Bool)
variable (hashBytes : (t : Ty) → El t → List Nat)
variable (debugStr : (t : Ty) → El t → String)

lemma downcastRef_self (t : Ty) (v : El t) :
    downcastRef tyName t (⟨t, v⟩ : EverD Ty El) = .ok v := by
  unfold downcastRef
  rw [dif_pos rfl]

lemma downcastRef_eq (T : Ty) (e : EverD Ty El) (h : e.ty = T) :
    downcastRef tyName T e = .ok (h ▸ e.val) := by
  unfold downcastRef
  rw [dif_pos h]

lemma downcastRef_ne (T : Ty) (e : EverD Ty El) (h : e.ty ≠ T) :
    downcastRef tyName T e = .error (cannotDowncast tyName T e) := by
  unfold downcastRef
  rw [dif_neg h]

lemma peqFn_same_ty (t : Ty) (v1 v2 : El t) :
    peqFn tyName eqEl t (⟨t, v1⟩ : EverD Ty El) ⟨t, v2⟩ = .ok (eqEl t v1 v2) := by
  unfold peqFn
  rw [downcastRef_self, downcastRef_self]

lemma hashFn_same_ty (t : Ty) (v : El t) (st : List Nat) :
    hashFn tyName hashBytes t (⟨t, v⟩ : EverD Ty El) st =
      .ok (st ++ hashBytes t v) := by
  unfold hashFn
  rw [downcastRef_self]

lemma chedEq_new_new (t : Ty) (v1 v2 : El t)
    (tok1 tok2 : Token tyName eqEl hashBytes debugStr t) :
    chedEq (CHED.new tyName eqEl hashBytes debugStr t v1 tok1)
        (CHED.new tyName eqEl hashBytes debugStr t v2 tok2) =
      .ok (eqEl t v1 v2) := by
  unfold chedEq CHED.new
  rw [tok1.hvt]
  exact peqFn_same_ty tyName eqEl t v1 v2

end Lemmas

section Claims

variable {Ty : Type} [DecidableEq Ty] {El : Ty → Type}
variable (tyName : Ty → String)
variable (eqEl : (t : Ty) → El t → El t → Bool)
variable (hashBytes : (t : Ty) → El t → List Nat)
variable (debugStr : (t : Ty) → El t → String)

/-- C1: `is::<T>()` is true iff the value's runtime type identity equals `T`'s;
`downcast_ref::<T>()` and `downcast_mut::<T>()` return `Ok` with the unchanged
value when the runtime type is `T`, and otherwise return `Err` with a
`DowncastError` whose source fields name the value's actual type and whose
target fields name `T`. -/
theorem is_downcast_correct (T : Ty) (e : EverD Ty El) :
    (e.is T = true ↔ T = e.ty)
    ∧ (∀ h : e.ty = T,
        downcastRef tyName T e = .ok (h ▸ e.val)
        ∧ downcastMut tyName T e = .ok (h ▸ e.val))
    ∧ (e.ty ≠ T →
        downcastRef tyName T e = .error ⟨e.ty, tyName e.ty, T, tyName T⟩
        ∧ downcastMut tyName T e = .error ⟨e.ty, tyName e.ty, T, tyName T⟩) := by
  refine ⟨by simp [EverD.is], fun h => ⟨?_, ?_⟩, fun h => ⟨?_, ?_⟩⟩
  · exact downcastRef_eq tyName T e h
  · unfold downcastMut; rw [dif_pos h]
  · unfold downcastRef; rw [dif_neg h]; rfl
  · unfold downcastMut; rw [dif_neg h]; rfl

/-- C1 witness: the boxed `i32` value 42 is an `i32` and not a `u32`; the
matching downcast succeeds with the unchanged value and the mismatched one
fails with the error naming `i32` and `u32`. -/
theorem is_downcast_correct_witness :
    (downcastRef rustName .i32 (ev .i32 42) = .ok (42 : Int)
      ∧ downcastMut rustName .i32 (ev .i32 42) = .ok (42 : Int))
    ∧ (downcastRef rustName .u32 (ev .i32 42)
        = .error ⟨.i32, "i32", .u32, "u32"⟩
      ∧ downcastMut rustName .u32 (ev .i32 42)
        = .error ⟨.i32, "i32", .u32, "u32"⟩) :=
  ⟨(is_downcast_correct rustName .i32 (ev .i32 42)).2.1 rfl,
    (is_downcast_correct rustName .u32 (ev .i32 42)).2.2 (by decide)⟩

/-- C2: the consuming `downcast::<T>()` on a boxed value whose runtime type is
not `T` fails; the private `__downcast` error path hands the erased value back
unchanged, and the public wrapper reports the `cannot_downcast` error. -/
theorem box_downcast_error_path (T : Ty) (s : EverD Ty El) (h : s.ty ≠ T) :
    downcastOwned T s = .error s
    ∧ boxDowncast tyName T s = .error (cannotDowncast tyName T s) := by
  have hown : downcastOwned T s = (.error s : Except (EverD Ty El) (El T)) := by
    unfold downcastOwned; rw [dif_neg h]
  refine ⟨hown, ?_⟩
  unfold boxDowncast
  rw [hown]

/-- C2 witness: the failed consuming downcast of boxed `42i32` to `u32`
returns the box unchanged internally and the naming error publicly. -/
theorem box_downcast_error_path_witness :
    downcastOwned RustTy.u32 (ev .i32 42) = .error (ev .i32 42)
    ∧ boxDowncast rustName RustTy.u32 (ev .i32 42)
        = .error (cannotDowncast rustName .u32 (ev .i32 42)) :=
  box_downcast_error_path rustName RustTy.u32 (ev .i32 42) (by decide)

/-- C9: a `DowncastError`'s displayed message is exactly the template
`cannot downcast {source type name} into {target type name}`; a failed
downcast produces that error, and the panic combinator aborts with the same
message. -/
theorem error_display_template (R : Type) (T : Ty) (e : EverD Ty El)
    (h : e.ty ≠ T) :
    downcastRef tyName T e = .error (cannotDowncast tyName T e)
    ∧ boxDowncast tyName T e = .error (cannotDowncast tyName T e)
    ∧ displayError (cannotDowncast tyName T e)
        = "cannot downcast " ++ tyName e.ty ++ " into " ++ tyName T
    ∧ epanic R (cannotDowncast tyName T e)
        = .error ("cannot downcast " ++ tyName e.ty ++ " into " ++ tyName T) := by
  refine ⟨downcastRef_ne tyName T e h, ?_, rfl, rfl⟩
  unfold boxDowncast downcastOwned
  rw [dif_neg h]

/-- C9 witness: the failed downcast of a boxed `i32` to `u32` displays and
panics with exactly `cannot downcast i32 into u32`. -/
theorem error_display_template_witness :
    downcastRef rustName .u32 (ev .i32 42)
        = .error (cannotDowncast rustName .u32 (ev .i32 42))
    ∧ boxDowncast rustName .u32 (ev .i32 42)
        = .error (cannotDowncast rustName .u32 (ev .i32 42))
    ∧ displayError (cannotDowncast rustName .u32 (ev .i32 42))
        = "cannot downcast i32 into u32"
    ∧ epanic Int (cannotDowncast rustName .u32 (ev .i32 42))
        = .error "cannot downcast i32 into u32" :=
  error_display_template rustName Int RustTy.u32 (ev .i32 42) (by decide)

/-- C10: the table's equality function specialised for `t` is asymmetric on
mismatches: a left argument that is not a `t` makes it panic with the downcast
error message, while a right mismatch (left being a `t`) returns `false`. -/
theorem peq_asymmetric (t : Ty) (a b : EverD Ty El) :
    (a.ty ≠ t →
      peqFn tyName eqEl t a b
        = .error (displayError (cannotDowncast tyName t a)))
    ∧ (a.ty = t → b.ty ≠ t → peqFn tyName eqEl t a b = .ok false) := by
  constructor
  · intro h
    unfold peqFn
    rw [downcastRef_ne tyName t a h]
  · intro ha hb
    unfold peqFn
    rw [downcastRef_eq tyName t a ha, downcastRef_ne tyName t b hb]

/-- C10 witness: with the table specialised for `i32`, a `&str` left argument
panics with the downcast message while a `&str` right argument (with an `i32`
left) yields `false`. -/
theorem peq_asymmetric_witness :
    peqFn rustName rustEq .i32 (ev .str "x") (ev .i32 1)
      = .error (displayError (cannotDowncast rustName .i32 (ev .str "x")))
    ∧ peqFn rustName rustEq .i32 (ev .i32 1) (ev .str "x") = .ok false :=
  ⟨(peq_asymmetric rustName rustEq .i32 (ev .str "x") (ev .i32 1)).1
      (by decide),
    (peq_asymmetric rustName rustEq .i32 (ev .i32 1) (ev .str "x")).2 rfl
      (by decide)⟩

end Claims

section ClaimsB

variable {Ty : Type} [DecidableEq Ty] {El : Ty → Type}
variable (tyName : Ty → String)
variable (eqEl : (t : Ty) → El t → El t → Bool)
variable (hashBytes : (t : Ty) → El t → List Nat)
variable (debugStr : (t : Ty) → El t → String)

/-- C3: equality dispatched through the table on two dynamic values whose
erased payloads have different runtime concrete types returns `false` — never
`true` and never a panic — for every choice of native equality, so the mismatch
is settled before any native comparison. -/
theorem cross_type_eq_false (c1 c2 : CHED Ty El)
    (h1 : wellFormed tyName eqEl hashBytes debugStr c1)
    (hne : c1.inner.ty ≠ c2.inner.ty) :
    chedEq c1 c2 = .ok false := by
  unfold chedEq
  rw [h1]
  show peqFn tyName eqEl c1.inner.ty c1.inner c2.inner = .ok false
  unfold peqFn
  rw [downcastRef_eq tyName c1.inner.ty c1.inner rfl,
    downcastRef_ne tyName c1.inner.ty c2.inner (fun h => hne h.symm)]

/-- C3 witness: the dynamic `42i32` and the dynamic `"foo"` compare unequal. -/
theorem cross_type_eq_false_witness :
    chedEq (CHED.new rustName rustEq rustHashBytes rustDebug .i32 42
        (rustTok .i32))
      (CHED.new rustName rustEq rustHashBytes rustDebug .str "foo"
        (rustTok .str)) = .ok false :=
  cross_type_eq_false rustName rustEq rustHashBytes rustDebug
    (CHED.new rustName rustEq rustHashBytes rustDebug .i32 42 (rustTok .i32))
    (CHED.new rustName rustEq rustHashBytes rustDebug .str "foo"
      (rustTok .str))
    rfl (by decide)

/-- C5: two dynamic values of the same concrete type built from any two
registry-resolved tokens compare exactly as the native equality of their
payloads. -/
theorem value_eq_native (t : Ty) (v1 v2 : El t)
    (tok1 tok2 : Token tyName eqEl hashBytes debugStr t) :
    chedEq (CHED.new tyName eqEl hashBytes debugStr t v1 tok1)
        (CHED.new tyName eqEl hashBytes debugStr t v2 tok2) =
      .ok (eqEl t v1 v2) :=
  chedEq_new_new tyName eqEl hashBytes debugStr t v1 v2 tok1 tok2

/-- C5 witness: dynamic `42i32` equals dynamic `42i32` and differs from
dynamic `43i32`, matching `i32`'s native equality, across separately resolved
tokens. -/
theorem value_eq_native_witness :
    chedEq (CHED.new rustName rustEq rustHashBytes rustDebug .i32 42
        (rustTok .i32))
      (CHED.new rustName rustEq rustHashBytes rustDebug .i32 42
        (Token.resolve rustName rustEq rustHashBytes rustDebug .i32))
      = .ok true
    ∧ chedEq (CHED.new rustName rustEq rustHashBytes rustDebug .i32 42
        (rustTok .i32))
      (CHED.new rustName rustEq rustHashBytes rustDebug .i32 43
        (rustTok .i32)) = .ok false :=
  ⟨value_eq_native rustName rustEq rustHashBytes rustDebug .i32 42 42
      (rustTok .i32)
      (Token.resolve rustName rustEq rustHashBytes rustDebug .i32),
    value_eq_native rustName rustEq rustHashBytes rustDebug .i32 42 43
      (rustTok .i32) (rustTok .i32)⟩

end ClaimsB

section ClaimsC

variable {Ty : Type} [DecidableEq Ty] {El : Ty → Type}
variable (tyName : Ty → String)
variable (eqEl : (t : Ty) → El t → El t → Bool)
variable (hashBytes : (t : Ty) → El t → List Nat)
variable (debugStr : (t : Ty) → El t → String)

/-- C6: when the concrete type's native hash is consistent with its native
equality, two equal dynamic values feed identical byte sequences into any hash
accumulator state, and a second insert of an equal key into the associative
container overwrites the existing entry rather than duplicating it. -/
theorem eq_hash_consistent (t : Ty) (v1 v2 : El t)
    (tok1 tok2 : Token tyName eqEl hashBytes debugStr t)
    (hc : ∀ w1 w2 : El t, eqEl t w1 w2 = true → hashBytes t w1 = hashBytes t w2)
    (heq : chedEq (CHED.new tyName eqEl hashBytes debugStr t v1 tok1)
        (CHED.new tyName eqEl hashBytes debugStr t v2 tok2) = .ok true) :
    (∀ st : List Nat,
      chedHash (CHED.new tyName eqEl hashBytes debugStr t v1 tok1) st =
        chedHash (CHED.new tyName eqEl hashBytes debugStr t v2 tok2) st)
    ∧ ∀ (β : Type) (b b' : β),
        mapInsert
            (mapInsert ([] : List (CHED Ty El × β))
              (CHED.new tyName eqEl hashBytes debugStr t v1 tok1) b)
            (CHED.new tyName eqEl hashBytes debugStr t v2 tok2) b' =
          [(CHED.new tyName eqEl hashBytes debugStr t v1 tok1, b')] := by
  have hnat : eqEl t v1 v2 = true := by
    have := chedEq_new_new tyName eqEl hashBytes debugStr t v1 v2 tok1 tok2
    rw [heq] at this
    exact (Except.ok.injEq _ _ ▸ this.symm)
  have hbytes : hashBytes t v1 = hashBytes t v2 := hc v1 v2 hnat
  constructor
  · intro st
    unfold chedHash CHED.new
    rw [tok1.hvt, tok2.hvt]
    show hashFn tyName hashBytes t ⟨t, v1⟩ st =
      hashFn tyName hashBytes t ⟨t, v2⟩ st
    rw [hashFn_same_ty, hashFn_same_ty, hbytes]
  · intro β b b'
    have hb : chedEqB (CHED.new tyName eqEl hashBytes debugStr t v1 tok1)
        (CHED.new tyName eqEl hashBytes debugStr t v2 tok2) = true := by
      unfold chedEqB
      rw [chedEq_new_new tyName eqEl hashBytes debugStr t v1 v2 tok1 tok2,
        hnat]
    unfold mapInsert
    simp [hb]

/-- C6 witness: the two equal dynamic `42i32` values hash to the same bytes
from the empty accumulator, and re-inserting an equal key leaves a one-entry
map with the new value. -/
theorem eq_hash_consistent_witness :
    (chedHash (CHED.new rustName rustEq rustHashBytes rustDebug .i32 42
          (rustTok .i32)) [] =
        chedHash (CHED.new rustName rustEq rustHashBytes rustDebug .i32 42
          (rustTok .i32)) [])
    ∧ mapInsert
        (mapInsert ([] : List (CHED RustTy rustEl × Nat))
          (CHED.new rustName rustEq rustHashBytes rustDebug .i32 42
            (rustTok .i32)) 7)
        (CHED.new rustName rustEq rustHashBytes rustDebug .i32 42
          (rustTok .i32)) 8 =
      [(CHED.new rustName rustEq rustHashBytes rustDebug .i32 42
          (rustTok .i32), 8)] := by
  have h := eq_hash_consistent rustName rustEq rustHashBytes rustDebug .i32
    42 42 (rustTok .i32) (rustTok .i32)
    (fun w1 w2 hw => by cases eq_of_beq hw; rfl) rfl
  exact ⟨h.1 [], h.2 Nat 7 8⟩

/-- C7 (amended): the invariant that the attached table is specialised for the
inner value's runtime type is established by construction from a matching
token and preserved by cloning, by mutation through a mutable downcast, and by
a whole-box write through `inner_mut` of a box with the inner's same runtime
type; it entails that the table's specialised type equals the inner value's
runtime type.  (It is not preserved by a whole-box write of a different-type
box — see the counterexample.) -/
theorem ched_invariant_preserved :
    (∀ (t : Ty) (v : El t) (tok : Token tyName eqEl hashBytes debugStr t),
      wellFormed tyName eqEl hashBytes debugStr
        (CHED.new tyName eqEl hashBytes debugStr t v tok))
    ∧ (∀ c c' : CHED Ty El, wellFormed tyName eqEl hashBytes debugStr c →
        chedClone c = .ok c' → wellFormed tyName eqEl hashBytes debugStr c')
    ∧ (∀ (c : CHED Ty El) (t : Ty) (f : El t → El t),
        wellFormed tyName eqEl hashBytes debugStr c →
        wellFormed tyName eqEl hashBytes debugStr (chedMutate t f c))
    ∧ (∀ (c : CHED Ty El) (b : EverD Ty El),
        wellFormed tyName eqEl hashBytes debugStr c → b.ty = c.inner.ty →
        wellFormed tyName eqEl hashBytes debugStr (chedSetInner b c))
    ∧ (∀ c : CHED Ty El, wellFormed tyName eqEl hashBytes debugStr c →
        c.vtable.spec = c.inner.ty) := by
  refine ⟨fun t v tok => ?_, fun c c' hwf hcl => ?_, fun c t f hwf => ?_,
    fun c b hwf hb => ?_, fun c hwf => ?_⟩
  · show (CHED.new tyName eqEl hashBytes debugStr t v tok).vtable = _
    rw [show (CHED.new tyName eqEl hashBytes debugStr t v tok).vtable = tok.vt
        from rfl, tok.hvt]
    rfl
  · unfold chedClone at hcl
    rw [hwf] at hcl
    revert hcl
    show (match cloneFn tyName c.inner.ty c.inner with
      | .error e => (.error e : Except String (CHED Ty El))
      | .ok inner =>
        .ok ⟨inner, specialise tyName eqEl hashBytes debugStr c.inner.ty⟩)
        = .ok c' → _
    unfold cloneFn
    rw [downcastRef_eq tyName c.inner.ty c.inner rfl]
    intro hcl
    have : c' = ⟨⟨c.inner.ty, c.inner.val⟩,
        specialise tyName eqEl hashBytes debugStr c.inner.ty⟩ := by
      cases hcl
      rfl
    rw [this]
    rfl
  · unfold chedMutate
    by_cases h : c.inner.ty = t
    · rw [dif_pos h]
      show c.vtable = specialise tyName eqEl hashBytes debugStr t
      rw [hwf, h]
    · rw [dif_neg h]
      exact hwf
  · show c.vtable = specialise tyName eqEl hashBytes debugStr b.ty
    rw [hwf, hb]
  · rw [hwf]
    rfl

end ClaimsC

/-- C7 witness: the invariant holds for a freshly built dynamic `42i32`, after
a mutation through the mutable downcast, and after a same-type whole-box
write; the table's specialised type equals the inner's runtime type. -/
theorem ched_invariant_preserved_witness :
    wellFormed rustName rustEq rustHashBytes rustDebug
      (CHED.new rustName rustEq rustHashBytes rustDebug .i32 42 (rustTok .i32))
    ∧ wellFormed rustName rustEq rustHashBytes rustDebug
      (chedMutate .i32 (fun v => v + 1)
        (CHED.new rustName rustEq rustHashBytes rustDebug .i32 42
          (rustTok .i32)))
    ∧ wellFormed rustName rustEq rustHashBytes rustDebug
      (chedSetInner (ev .i32 7)
        (CHED.new rustName rustEq rustHashBytes rustDebug .i32 42
          (rustTok .i32)))
    ∧ (CHED.new rustName rustEq rustHashBytes rustDebug .i32 42
        (rustTok .i32)).vtable.spec =
      (CHED.new rustName rustEq rustHashBytes rustDebug .i32 42
        (rustTok .i32)).inner.ty :=
  ⟨(ched_invariant_preserved rustName rustEq rustHashBytes rustDebug).1
      .i32 42 (rustTok .i32),
    (ched_invariant_preserved rustName rustEq rustHashBytes rustDebug).2.2.1
      (CHED.new rustName rustEq rustHashBytes rustDebug .i32 42 (rustTok .i32))
      .i32 (fun v => v + 1) rfl,
    (ched_invariant_preserved rustName rustEq rustHashBytes
        rustDebug).2.2.2.1
      (CHED.new rustName rustEq rustHashBytes rustDebug .i32 42 (rustTok .i32))
      (ev .i32 7) rfl rfl,
    (ched_invariant_preserved rustName rustEq rustHashBytes
        rustDebug).2.2.2.2
      (CHED.new rustName rustEq rustHashBytes rustDebug .i32 42 (rustTok .i32))
      rfl⟩

/-- C7 counterexample: writing a different-type box through the
`&mut Box<dyn Every>` returned by `inner_mut` is an operation that leaves the
inner value's runtime type (`&str`) different from the table's specialised
type (`i32`): the invariant is broken, and the next dispatched equality panics
through the checked downcast. -/
theorem inner_mut_breaks_invariant :
    (chedSetInner (ev .str "foo")
        (CHED.new rustName rustEq rustHashBytes rustDebug .i32 42
          (rustTok .i32))).vtable.spec ≠
      (chedSetInner (ev .str "foo")
        (CHED.new rustName rustEq rustHashBytes rustDebug .i32 42
          (rustTok .i32))).inner.ty
    ∧ ¬ wellFormed rustName rustEq rustHashBytes rustDebug
      (chedSetInner (ev .str "foo")
        (CHED.new rustName rustEq rustHashBytes rustDebug .i32 42
          (rustTok .i32)))
    ∧ chedEq
        (chedSetInner (ev .str "foo")
          (CHED.new rustName rustEq rustHashBytes rustDebug .i32 42
            (rustTok .i32)))
        (chedSetInner (ev .str "foo")
          (CHED.new rustName rustEq rustHashBytes rustDebug .i32 42
            (rustTok .i32))) = .error "cannot downcast &str into i32" :=
  ⟨by decide, fun h => absurd (congrArg VTable.spec h) (by decide), rfl⟩

section RegistryLemmas

variable {K : Type} [DecidableEq K]

lemma findTbl_none_not_mem {l : List (K × Nat)} {k : K}
    (h : findTbl l k = none) : k ∉ l.map Prod.fst := by
  induction l with
  | nil => simp
  | cons p ps ih =>
    unfold findTbl at h
    by_cases hpk : p.1 = k
    · rw [if_pos hpk] at h
      cases h
    · rw [if_neg hpk] at h
      simp only [List.map_cons, List.mem_cons, not_or]
      exact ⟨fun he => hpk he.symm, ih h⟩

lemma getOrCreate_mono {s : RegState K} {k : K} {v : Nat} (k' : K)
    (h : findTbl s.tbl k = some v) :
    findTbl (getOrCreate k' s).1.tbl k = some v := by
  unfold getOrCreate
  cases hf : findTbl s.tbl k' with
  | some id => simpa using h
  | none =>
    have hkk : k' ≠ k := by
      intro he
      rw [he, h] at hf
      cases hf
    simp only [findTbl]
    rw [if_neg hkk]
    exact h

lemma getOrCreate_result (k : K) (s : RegState K) :
    findTbl (getOrCreate k s).1.tbl k = some (getOrCreate k s).2 := by
  unfold getOrCreate
  cases hf : findTbl s.tbl k with
  | some id => simpa using hf
  | none =>
    simp [findTbl]

lemma regRun_fst (s : RegState K) (k : K) (ks : List K) :
    (regRun s (k :: ks)).1 = (regRun (getOrCreate k s).1 ks).1 := rfl

lemma regRun_snd (s : RegState K) (k : K) (ks : List K) :
    (regRun s (k :: ks)).2 =
      (getOrCreate k s).2 :: (regRun (getOrCreate k s).1 ks).2 := rfl

lemma regRun_mono {k : K} {v : Nat} (ks : List K) (s : RegState K)
    (h : findTbl s.tbl k = some v) :
    findTbl (regRun s ks).1.tbl k = some v := by
  induction ks generalizing s with
  | nil => exact h
  | cons k' ks ih =>
    rw [regRun_fst]
    exact ih _ (getOrCreate_mono k' h)

lemma regRun_zip (ks : List K) (s : RegState K) :
    ∀ p ∈ ks.zip (regRun s ks).2,
      findTbl (regRun s ks).1.tbl p.1 = some p.2 := by
  induction ks generalizing s with
  | nil =>
    intro p hp
    simp [regRun] at hp
  | cons k' ks ih =>
    intro p hp
    rw [regRun_snd] at hp
    rw [List.zip_cons_cons, List.mem_cons] at hp
    rcases hp with hp | hp
    · rw [hp, regRun_fst]
      exact regRun_mono ks _ (getOrCreate_result k' s)
    · rw [regRun_fst]
      exact ih _ p hp

lemma nodupKeys_getOrCreate (k : K) (s : RegState K)
    (h : (s.tbl.map Prod.fst).Nodup) :
    ((getOrCreate k s).1.tbl.map Prod.fst).Nodup := by
  unfold getOrCreate
  cases hf : findTbl s.tbl k with
  | some id => simpa using h
  | none =>
    simp only [List.map_cons]
    exact List.nodup_cons.mpr ⟨findTbl_none_not_mem hf, h⟩

lemma nodupKeys_regRun (ks : List K) (s : RegState K)
    (h : (s.tbl.map Prod.fst).Nodup) :
    ((regRun s ks).1.tbl.map Prod.fst).Nodup := by
  induction ks generalizing s with
  | nil => exact h
  | cons k' ks ih =>
    rw [regRun_fst]
    exact ih _ (nodupKeys_getOrCreate k' s h)

end RegistryLemmas

/-- C4: in any interleaving of `get_or_create` calls (each call one atomic
critical section), all calls for the same key return the same table reference,
and the final registry holds at most one table per key, so at most one table
is ever created for a fixed key. -/
theorem registry_single_table {K : Type} [DecidableEq K] (ks : List K) :
    (∀ p ∈ ks.zip (regRun (RegState.empty K) ks).2,
      ∀ q ∈ ks.zip (regRun (RegState.empty K) ks).2,
        p.1 = q.1 → p.2 = q.2)
    ∧ ∀ k : K,
        ((regRun (RegState.empty K) ks).1.tbl.map Prod.fst).count k ≤ 1 := by
  constructor
  · intro p hp q hq hpq
    have h1 := regRun_zip ks (RegState.empty K) p hp
    have h2 := regRun_zip ks (RegState.empty K) q hq
    rw [hpq, h2] at h1
    exact (Option.some.injEq _ _ ▸ h1).symm
  · intro k
    exact List.nodup_iff_count_le_one.mp
      (nodupKeys_regRun ks (RegState.empty K) (by simp [RegState.empty])) k

/-- C4 witness: three interleaved calls for the keys (i32, kind 0),
(str, kind 0), (i32, kind 0) return the references [0, 1, 0]: the repeated key
observes the first call's table, and the final registry holds one table per
key. -/
theorem registry_single_table_witness :
    (regRun (RegState.empty (RustTy × Nat))
        [(RustTy.i32, 0), (RustTy.str, 0), (RustTy.i32, 0)]).2 = [0, 1, 0]
    ∧ (((RustTy.i32, 0), 0) : (RustTy × Nat) × Nat).2 =
        (((RustTy.i32, 0), 0) : (RustTy × Nat) × Nat).2
    ∧ ((regRun (RegState.empty (RustTy × Nat))
        [(RustTy.i32, 0), (RustTy.str, 0), (RustTy.i32, 0)]).1.tbl.map Prod.fst).count
        (RustTy.i32, 0) ≤ 1 :=
  ⟨by decide,
    (registry_single_table [(RustTy.i32, 0), (RustTy.str, 0), (RustTy.i32, 0)]).1
      ((RustTy.i32, 0), 0) (by decide) ((RustTy.i32, 0), 0) (by decide) rfl,
    (registry_single_table [(RustTy.i32, 0), (RustTy.str, 0), (RustTy.i32, 0)]).2 (RustTy.i32, 0)⟩

section ClaimsD

variable {Ty : Type} [DecidableEq Ty] {El : Ty → Type}
variable (tyName : Ty → String)
variable (eqEl : (t : Ty) → El t → El t → Bool)
variable (hashBytes : (t : Ty) → El t → List Nat)
variable (debugStr : (t : Ty) → El t → String)

/-- C8: cloning a dynamic value deep-copies its payload into a fresh box and
shares the table by reference: the clone's payload equals the original's, its
box address is distinct, and every later mutation of the original through a
mutable downcast leaves the clone's cell untouched. -/
theorem clone_independent (h : Heap Ty El) (c : HCHED Ty El) (e : EverD Ty El)
    (hcell : h[c.inner]? = some e)
    (hwf : c.vtable = specialise tyName eqEl hashBytes debugStr e.ty) :
    ∃ (h2 : Heap Ty El) (c2 : HCHED Ty El),
      hchedClone h c = .ok (h2, c2)
      ∧ c2.vtable = c.vtable
      ∧ c2.inner ≠ c.inner
      ∧ h2[c2.inner]? = some e
      ∧ h2[c.inner]? = some e
      ∧ ∀ (t : Ty) (f : El t → El t),
          (hmutate h2 c t f)[c2.inner]? = some e := by
  have hlt : c.inner < h.length := by
    by_contra hc
    rw [List.getElem?_eq_none (Nat.le_of_not_lt hc)] at hcell
    cases hcell
  have hdc : downcastRef tyName e.ty e = .ok e.val :=
    downcastRef_eq tyName e.ty e rfl
  have hcl : cloneFn tyName e.ty e = .ok e := by
    unfold cloneFn
    rw [hdc]
  have hclone : hchedClone h c = .ok (h ++ [e], ⟨h.length, c.vtable⟩) := by
    unfold hchedClone
    rw [hcell, hwf]
    simp only [specialise, hcl, halloc]
  have hne : c.inner ≠ h.length := Nat.ne_of_lt hlt
  have hcell2 : (h ++ [e])[c.inner]? = some e := by
    rw [List.getElem?_append_left hlt]
    exact hcell
  refine ⟨h ++ [e], ⟨h.length, c.vtable⟩, hclone, rfl, fun hx => hne hx.symm,
    List.getElem?_concat_length h e, hcell2, ?_⟩
  intro t f
  unfold hmutate
  rw [hcell2]
  by_cases hty : e.ty = t
  · simp only [dif_pos hty]
    show ((h ++ [e]).set c.inner _)[h.length]? = some e
    rw [List.getElem?_set_ne hne]
    exact List.getElem?_concat_length h e
  · simp only [dif_neg hty]
    exact List.getElem?_concat_length h e

/-- C8 witness: over the one-cell heap holding boxed `42i32`, the clone lands
in a fresh box with the same payload and same table; incrementing the original
through a mutable downcast leaves the clone's cell holding 42. -/
theorem clone_independent_witness :
    ∃ (h2 : Heap RustTy rustEl) (c2 : HCHED RustTy rustEl),
      hchedClone [ev .i32 42] ⟨0, specialise rustName rustEq rustHashBytes
          rustDebug RustTy.i32⟩ = .ok (h2, c2)
      ∧ c2.vtable = (⟨0, specialise rustName rustEq rustHashBytes rustDebug
          RustTy.i32⟩ : HCHED RustTy rustEl).vtable
      ∧ c2.inner ≠ 0
      ∧ h2[c2.inner]? = some (ev .i32 42)
      ∧ h2[(0 : Nat)]? = some (ev .i32 42)
      ∧ ∀ (t : RustTy) (f : rustEl t → rustEl t),
          (hmutate h2 ⟨0, specialise rustName rustEq rustHashBytes rustDebug
            RustTy.i32⟩ t f)[c2.inner]? = some (ev .i32 42) :=
  clone_independent rustName rustEq rustHashBytes rustDebug
    [ev .i32 42]
    ⟨0, specialise rustName rustEq rustHashBytes rustDebug RustTy.i32⟩
    (ev .i32 42) rfl rfl

end ClaimsD
